import Mathlib

/-!
Shallow embedding of `little-busters.py`, a page-image archive checker.

Sizes are pairs of rationals (Python true division is embedded as exact
rational division).  Python's `ZeroDivisionError` is embedded by returning
`none` exactly where the script would raise: `calculate_average_resolution`
divides by the entry count, and the loop bodies of `detect_double_spreads`
and `detect_non_pages` divide by the average components on every iteration,
so a non-empty list with a zero average component fails on the first
iteration.  In-place mutation of the Python list `sizes` is embedded as a
fold over the indices that reads the current index from the live list and
writes it back with `List.set`, exactly as the Python `for index, size in
enumerate(sizes)` loop reads and writes the live list.
-/

set_option maxRecDepth 100000

namespace LittleBusters

/-- From `calculate_average_resolution`: `sum([x[0] for x in sizes]) / count`. -/
def avg_width (sizes : List (ℚ × ℚ)) : ℚ :=
  (sizes.map Prod.fst).sum / sizes.length

/-- From `calculate_average_resolution`: `sum([x[1] for x in sizes]) / count`. -/
def avg_height (sizes : List (ℚ × ℚ)) : ℚ :=
  (sizes.map Prod.snd).sum / sizes.length

/-- Embeds `calculate_average_resolution(sizes)`: the per-coordinate arithmetic mean.
On an empty list Python raises `ZeroDivisionError` (`count = 0`), embedded
as `none`. -/
def calculate_average_resolution (sizes : List (ℚ × ℚ)) : Option (ℚ × ℚ) :=
  if sizes.length = 0 then none
  else some (avg_width sizes, avg_height sizes)

/-- The test of the loop body of `detect_double_spreads`:
`horizontal_diff < treshold and vertical_diff < treshold` with
`horizontal_diff = abs(1 - size[0] / 2 / average[0])` and
`vertical_diff = abs(1 - size[1] / average[1])`. -/
def is_double_spread (average : ℚ × ℚ) (treshold : ℚ) (size : ℚ × ℚ) : Prop :=
  |1 - size.1 / 2 / average.1| < treshold ∧ |1 - size.2 / average.2| < treshold

instance (average : ℚ × ℚ) (treshold : ℚ) (size : ℚ × ℚ) :
    Decidable (is_double_spread average treshold size) :=
  inferInstanceAs (Decidable (_ ∧ _))

/-- The assignment of the loop body of `detect_double_spreads`:
`sizes[index] = (size[0] / 2, size[1])`. -/
def spread_rewrite (size : ℚ × ℚ) : ℚ × ℚ :=
  (size.1 / 2, size.2)

/-- One iteration of the `for index, size in enumerate(sizes)` loop of
`detect_double_spreads`: read the live list at the current index and overwrite
that index when the spread test passes. -/
def dds_body (average : ℚ × ℚ) (treshold : ℚ) (acc : List (ℚ × ℚ))
    (index : ℕ) : List (ℚ × ℚ) :=
  let size := acc.getD index (0, 0)
  if is_double_spread average treshold size
  then acc.set index (spread_rewrite size)
  else acc

/-- The `for index, size in enumerate(sizes)` loop of `detect_double_spreads`,
folding `dds_body` over the indices of the live list.  The average is the one
value computed before the loop. -/
def dds_loop (average : ℚ × ℚ) (treshold : ℚ) (sizes : List (ℚ × ℚ)) :
    List (ℚ × ℚ) :=
  (List.range sizes.length).foldl (dds_body average treshold) sizes

/-- Embeds `detect_double_spreads(sizes, treshold)`: returns the final value of the
mutated list.  `none` embeds the `ZeroDivisionError` paths: the empty list
(inside `calculate_average_resolution`), and a zero average component with a
non-empty list (first loop iteration divides by `average[0]` and
`average[1]`). -/
def detect_double_spreads (sizes : List (ℚ × ℚ)) (treshold : ℚ) :
    Option (List (ℚ × ℚ)) :=
  match calculate_average_resolution sizes with
  | none => none
  | some average =>
    if average.1 = 0 ∨ average.2 = 0 then none
    else some (dds_loop average treshold sizes)

/-- The loop body of `detect_non_pages`: appends `(index, size_diff)` with
`size_diff = resolution / average_resolution` whenever
`1 - size_diff > treshold`. -/
def dnp_body (average_resolution treshold : ℚ)
    (indexes : List (ℕ × ℚ)) (p : ℕ × (ℚ × ℚ)) : List (ℕ × ℚ) :=
  let size_diff := (p.2.1 * p.2.2) / average_resolution
  if 1 - size_diff > treshold then indexes ++ [(p.1, size_diff)] else indexes

/-- Embeds `detect_non_pages(sizes, treshold)`: folds `dnp_body` over the enumerated
list, starting from the empty accumulator, exactly as the Python loop appends
to `indexes`.  `none` embeds the `ZeroDivisionError` paths (empty list; zero
`average_resolution` with a non-empty list, since every iteration divides by
it). -/
def detect_non_pages (sizes : List (ℚ × ℚ)) (treshold : ℚ) :
    Option (List (ℕ × ℚ)) :=
  match calculate_average_resolution sizes with
  | none => none
  | some average =>
    let average_resolution := average.1 * average.2
    if average_resolution = 0 then none
    else some (sizes.enum.foldl (dnp_body average_resolution treshold) [])

/-- The loop body of `create_archive`: skip the entry when its position is in
`excluded`, otherwise copy it (extract then write) to the new archive. -/
def ca_body {α : Type} (excluded : List ℕ) (new_archive : List α)
    (p : ℕ × α) : List α :=
  if p.1 ∈ excluded then new_archive else new_archive ++ [p.2]

/-- Embeds the positional behaviour of `create_archive(archive, excluded)`:
copies, in entry order, every entry whose position is not in `excluded` into
a fresh archive.  This captures which entries are kept, their order and their
bytes; it does NOT model the entry name that `ZipFile.write` records — for
that refinement see `create_archive_zip` below. -/
def create_archive {α : Type} (archive : List α) (excluded : List ℕ) : List α :=
  archive.enum.foldl (ca_body excluded) []

/-- Models `os.path.join(temporary_directory.name, filename)` for the staging
step of `create_archive`.  Zip member names do not begin with a path
separator, so the join is plain concatenation. -/
def os_path_join (dir file : String) : String :=
  dir ++ "/" ++ file

/-- Models the default `arcname` of CPython's `ZipFile.write(filename)`: the
given path with the drive letter and leading path separators removed (no
drive letters here, so only the leading separators are stripped). -/
def zip_write_arcname (path : String) : String :=
  ⟨path.data.dropWhile (fun c => c = '/')⟩

/-- Refines `create_archive` on named entries by also modelling what entry
name each `new_archive.write(os.path.join(temporary_directory.name,
filename))` call records: `ZipFile.write` is given the staged path and no
`arcname`, so the stored name is the staged path with leading separators
stripped — not the original `filename`.  `tmpdir` is the
`TemporaryDirectory` path of the run (e.g. `/tmp/tmpab12cd34`). -/
def create_archive_zip (tmpdir : String)
    (archive : List (String × List ℕ)) (excluded : List ℕ) :
    List (String × List ℕ) :=
  archive.enum.foldl
    (fun new_archive p =>
      if p.1 ∈ excluded then new_archive
      else new_archive
        ++ [(zip_write_arcname (os_path_join tmpdir p.2.1), p.2.2)])
    []

/-- An archive entry for the pipeline model: name, raw bytes, and the result
of decoding the bytes as an image (`none` when the bytes are not a valid
image, in which case `get_sizes` fails). -/
structure Entry where
  name : String
  data : List ℕ
  size : Option (ℚ × ℚ)
deriving DecidableEq

/-- Embeds `get_sizes(archive)`: the decoded size of every entry, in entry order;
fails (PIL raises) as soon as one entry does not decode. -/
def get_sizes (archive : List Entry) : Option (List (ℚ × ℚ)) :=
  archive.mapM Entry.size

/-- Whether an `Except` result is the error case. -/
def except_failed {ε α : Type} : Except ε α → Bool
  | .error _ => true
  | .ok _ => false

/-- The analysis phase of `main`'s per-file body: `get_sizes`, then
`detect_double_spreads`, then `detect_non_pages`, each failure
short-circuiting.  None of these touches the archive file. -/
def analyze (content : List Entry) (treshold : ℚ) : Option (List (ℕ × ℚ)) :=
  (get_sizes content).bind fun sizes =>
    (detect_double_spreads sizes treshold).bind fun sizes2 =>
      detect_non_pages sizes2 treshold

/-- The per-file body of `main`, as a state transformer on the content of the
original archive file.  Each fallible step short-circuits with the file
content untouched; `stage_ok = false` injects an I/O failure into the
`create_archive` staging step.  Only the final `copyfile(new_file.name, file)`
on the all-success, non-dry-run path replaces the original content. -/
def run_file (content : List Entry) (treshold : ℚ) (dry_run stage_ok : Bool) :
    Except String Unit × List Entry :=
  match analyze content treshold with
  | none => (.error ("analysis failure"), content)
  | some non_pages =>
    if non_pages = [] then (.ok (), content)
    else if dry_run then (.ok (), content)
    else if stage_ok then
      (.ok (), create_archive content (non_pages.map Prod.fst))
    else (.error ("staging failure"), content)

/-- Modelled from the spec (section 4.2, steps 2–3), for comparison with the
source loop: one entry's fate against the single pre-pass average —
`horizontal_diff = |1 − (width/2)/average_width|`,
`vertical_diff = |1 − height/average_height|`, and the width is halved
exactly when both are strictly below the threshold. -/
def spread_step_spec (average : ℚ × ℚ) (treshold : ℚ) (size : ℚ × ℚ) :
    ℚ × ℚ :=
  if |1 - (size.1 / 2) / average.1| < treshold ∧
     |1 - size.2 / average.2| < treshold
  then (size.1 / 2, size.2)
  else size

/-! ### Loop characterizations -/

/-- Appending-style fold of `dnp_body` collects exactly the filtered,
ratio-annotated entries, in order. -/
theorem dnp_foldl (average_resolution treshold : ℚ) (l : List (ℕ × (ℚ × ℚ))) :
    ∀ acc : List (ℕ × ℚ),
      l.foldl (dnp_body average_resolution treshold) acc
        = acc ++ (l.filter (fun p =>
            decide (1 - (p.2.1 * p.2.2) / average_resolution > treshold))).map
            (fun p => (p.1, (p.2.1 * p.2.2) / average_resolution)) := by
  induction l with
  | nil => intro acc; simp
  | cons p l ih =>
    intro acc
    by_cases h : 1 - (p.2.1 * p.2.2) / average_resolution > treshold
    · simp [List.foldl_cons, dnp_body, h, ih, List.filter_cons]
    · simp [List.foldl_cons, dnp_body, h, ih, List.filter_cons]

/-- Appending-style fold of `ca_body` keeps exactly the entries whose position
is not excluded, in order. -/
theorem ca_foldl {α : Type} (excluded : List ℕ) (l : List (ℕ × α)) :
    ∀ acc : List α,
      l.foldl (ca_body excluded) acc
        = acc ++ (l.filter (fun p => decide (p.1 ∉ excluded))).map Prod.snd := by
  induction l with
  | nil => intro acc; simp
  | cons p l ih =>
    intro acc
    by_cases h : p.1 ∈ excluded
    · simp [List.foldl_cons, ca_body, h, ih, List.filter_cons]
    · simp [List.foldl_cons, ca_body, h, ih, List.filter_cons]

/-- Applying `dds_body` at index `pre.length` of `pre ++ x :: suf` reads `x` and
rewrites only position `pre.length`. -/
theorem dds_body_at (average : ℚ × ℚ) (treshold : ℚ)
    (pre suf : List (ℚ × ℚ)) (x : ℚ × ℚ) :
    dds_body average treshold (pre ++ x :: suf) pre.length
      = pre ++
        (if is_double_spread average treshold x then spread_rewrite x else x)
        :: suf := by
  have hget : (pre ++ x :: suf).getD pre.length (0, 0) = x := by
    rw [List.getD_eq_getElem?_getD,
      List.getElem?_append_right (Nat.le_refl pre.length)]
    simp
  simp only [dds_body, hget]
  by_cases h : is_double_spread average treshold x
  · rw [if_pos h, if_pos h,
      List.set_append_right _ _ (Nat.le_refl pre.length)]
    simp
  · rw [if_neg h, if_neg h]

/-- The in-place forward pass: starting anywhere in the list, folding
`dds_body` over the remaining indices rewrites each remaining entry
independently, against the fixed `average`. -/
theorem dds_loop_eq_map_aux (average : ℚ × ℚ) (treshold : ℚ)
    (suf : List (ℚ × ℚ)) :
    ∀ pre : List (ℚ × ℚ),
      (List.range' pre.length suf.length).foldl
          (dds_body average treshold) (pre ++ suf)
        = pre ++ suf.map (fun s =>
            if is_double_spread average treshold s then spread_rewrite s
            else s) := by
  induction suf with
  | nil => intro pre; simp
  | cons x suf ih =>
    intro pre
    rw [List.length_cons, List.range'_succ, List.foldl_cons, dds_body_at]
    set y := if is_double_spread average treshold x then spread_rewrite x
      else x with hy
    have h1 : pre ++ y :: suf = (pre ++ [y]) ++ suf := by simp
    have h2 : pre.length + 1 = (pre ++ [y]).length := by simp
    rw [h1, h2, ih (pre ++ [y])]
    simp

/-- The mutating loop of `detect_double_spreads` equals a one-pass map
against the single precomputed average: later iterations are unaffected by
earlier rewrites. -/
theorem dds_loop_eq_map (average : ℚ × ℚ) (treshold : ℚ)
    (sizes : List (ℚ × ℚ)) :
    dds_loop average treshold sizes
      = sizes.map (fun s =>
          if is_double_spread average treshold s then spread_rewrite s
          else s) := by
  have h := dds_loop_eq_map_aux average treshold sizes []
  simpa [dds_loop, List.range_eq_range'] using h

/-! ### Enumeration and counting helpers -/

theorem fst_le_of_mem_enumFrom {α : Type} (l : List α) :
    ∀ (n : ℕ) (p : ℕ × α), p ∈ l.enumFrom n → n ≤ p.1 := by
  induction l with
  | nil => simp
  | cons x l ih =>
    intro n p hp
    rw [List.enumFrom_cons] at hp
    rcases List.mem_cons.mp hp with h | h
    · rw [h]
    · exact Nat.le_of_succ_le (ih (n + 1) p h)

theorem pairwise_fst_lt_enumFrom {α : Type} (l : List α) :
    ∀ n : ℕ, (l.enumFrom n).Pairwise (fun a b => a.1 < b.1) := by
  induction l with
  | nil => simp
  | cons x l ih =>
    intro n
    rw [List.enumFrom_cons]
    exact List.Pairwise.cons
      (fun p hp => Nat.lt_of_succ_le (fst_le_of_mem_enumFrom l (n + 1) p hp))
      (ih (n + 1))

theorem fst_lt_of_mem_enum {α : Type} (l : List α) (p : ℕ × α)
    (hp : p ∈ l.enum) : p.1 < l.length := by
  have h := List.mk_mem_enum_iff_getElem?.mp (by exact hp)
  rcases List.getElem?_eq_some.mp h with ⟨hlt, _⟩
  exact hlt

/-- Keeping the non-excluded positions of an enumerated list removes exactly
one entry per excluded index, provided the excluded indices are duplicate-free
and in range. -/
theorem length_filter_not_mem_enum {α : Type} (l : List α) (E : List ℕ)
    (hnd : E.Nodup) (hb : ∀ e ∈ E, e < l.length) :
    (l.enum.filter (fun p => decide (p.1 ∉ E))).length
      = l.length - E.length := by
  have h1 : (List.range l.length).filter (fun i => decide (i ∉ E))
      = (l.enum.filter (fun p => decide (p.1 ∉ E))).map Prod.fst := by
    rw [List.range_eq_range', ← List.enumFrom_map_fst 0 l, List.filter_map]
    rfl
  have hidx : (l.enum.filter (fun p => decide (p.1 ∉ E))).length
      = ((List.range l.length).filter (fun i => decide (i ∉ E))).length := by
    rw [h1, List.length_map]
  have hperm : ((List.range l.length).filter (fun i => decide (i ∈ E))).Perm
      E := by
    refine List.perm_of_nodup_nodup_toFinset_eq
      (List.Nodup.filter _ (List.nodup_range _)) hnd ?_
    ext i
    simp only [List.mem_toFinset, List.mem_filter, List.mem_range,
      decide_eq_true_eq]
    exact ⟨fun h => h.2, fun h => ⟨hb i h, h⟩⟩
  have hsplit := List.length_eq_length_filter_add
    (l := List.range l.length) (fun i => decide (i ∈ E))
  have hnotc : (List.range l.length).filter (fun i => !(decide (i ∈ E)))
      = (List.range l.length).filter (fun i => decide (i ∉ E)) := by
    refine List.filter_congr ?_
    intro i _
    simp
  rw [hnotc] at hsplit
  have hlenE := hperm.length_eq
  rw [List.length_range] at hsplit
  rw [hidx]
  omega

/-- Pointwise bridge between the loop's test-and-rewrite and the spec's
formulation of one entry's fate. -/
theorem spread_step_spec_eq (average : ℚ × ℚ) (treshold : ℚ) (s : ℚ × ℚ) :
    spread_step_spec average treshold s
      = if is_double_spread average treshold s then spread_rewrite s else s := by
  by_cases h : is_double_spread average treshold s
  · have h' := h
    rw [is_double_spread] at h'
    rw [spread_step_spec, if_pos h', if_pos h, spread_rewrite]
  · have h' := h
    rw [is_double_spread] at h'
    rw [spread_step_spec, if_neg h', if_neg h]

/-! ### Claims -/

/-- C1: for a non-empty size list and threshold in (0,1) (with the averages
nonzero, so no division error), `detect_double_spreads` computes the
per-coordinate mean once, before any mutation, and the single forward pass
rewrites `sizes[i] = (w, h)` to `(w/2, h)` exactly when both diffs are
strictly below the threshold with respect to that one pre-normalization
average, independently of earlier rewrites in the same pass. -/
theorem claim_C1 (sizes : List (ℚ × ℚ)) (treshold : ℚ)
    (hne : sizes ≠ []) (ht0 : 0 < treshold) (ht1 : treshold < 1)
    (hw : avg_width sizes ≠ 0) (hh : avg_height sizes ≠ 0) :
    detect_double_spreads sizes treshold
      = some (sizes.map
          (spread_step_spec (avg_width sizes, avg_height sizes) treshold)) := by
  have hlen : sizes.length ≠ 0 := fun h => hne (List.length_eq_zero.mp h)
  simp only [detect_double_spreads, calculate_average_resolution, hlen,
    if_false, ite_false]
  rw [if_neg (not_or.mpr ⟨hw, hh⟩), dds_loop_eq_map]
  have hfun : (fun s => if is_double_spread (avg_width sizes, avg_height sizes)
        treshold s then spread_rewrite s else s)
      = spread_step_spec (avg_width sizes, avg_height sizes) treshold :=
    funext fun s => (spread_step_spec_eq _ _ s).symm
  rw [hfun]

unseal Rat.mul Rat.inv Rat.add Rat.sub Rat.ofScientific in
/-- Witness for C1 at the double-spread scenario list with threshold 1/5. -/
theorem claim_C1_witness :
    (List.replicate 9 ((1000 : ℚ), (1500 : ℚ)) ++ [(2000, 1500)]) ≠ [] ∧
    (0 : ℚ) < 1/5 ∧ (1/5 : ℚ) < 1 ∧
    detect_double_spreads
        (List.replicate 9 ((1000 : ℚ), (1500 : ℚ)) ++ [(2000, 1500)]) (1/5)
      = some ((List.replicate 9 ((1000 : ℚ), (1500 : ℚ)) ++ [(2000, 1500)]).map
          (spread_step_spec
            (avg_width
              (List.replicate 9 ((1000 : ℚ), (1500 : ℚ)) ++ [(2000, 1500)]),
             avg_height
              (List.replicate 9 ((1000 : ℚ), (1500 : ℚ)) ++ [(2000, 1500)]))
            (1/5))) :=
  ⟨by decide, by norm_num, by norm_num,
   claim_C1 _ (1/5) (by decide) (by norm_num) (by norm_num)
     (by decide) (by decide)⟩

/-- C2: on a non-empty size list (with nonzero average area, so no division
error) `detect_non_pages` returns exactly the pairs `(i, ratio_i)` with
`ratio_i = area_i / average_area` and `1 - ratio_i > treshold`, in strictly
ascending index order; for a positive threshold and positive average area no
flagged entry has area at or above the average. -/
theorem claim_C2 (sizes : List (ℚ × ℚ)) (treshold : ℚ) (hne : sizes ≠ [])
    (havg : avg_width sizes * avg_height sizes ≠ 0) :
    ∃ out, detect_non_pages sizes treshold = some out ∧
      (∀ i r, (i, r) ∈ out ↔ ∃ s, sizes[i]? = some s ∧
          r = (s.1 * s.2) / (avg_width sizes * avg_height sizes) ∧
          1 - r > treshold) ∧
      out.Pairwise (fun a b => a.1 < b.1) ∧
      (0 < treshold → 0 < avg_width sizes * avg_height sizes →
        ∀ i r s, (i, r) ∈ out → sizes[i]? = some s →
          s.1 * s.2 < avg_width sizes * avg_height sizes) := by
  have hlen : sizes.length ≠ 0 := fun h => hne (List.length_eq_zero.mp h)
  refine ⟨(sizes.enum.filter (fun p => decide
      (1 - (p.2.1 * p.2.2) / (avg_width sizes * avg_height sizes)
        > treshold))).map
      (fun p => (p.1, (p.2.1 * p.2.2) / (avg_width sizes * avg_height sizes))),
    ?_, ?_, ?_, ?_⟩
  · simp only [detect_non_pages, calculate_average_resolution, hlen,
      if_false, ite_false]
    rw [if_neg havg, dnp_foldl]
    simp
  · intro i r
    simp only [List.mem_map, List.mem_filter, decide_eq_true_eq]
    constructor
    · rintro ⟨p, ⟨hpmem, hpcond⟩, hpr⟩
      have hget := List.mem_enum_iff_getElem?.mp hpmem
      obtain ⟨hi, hr⟩ := Prod.mk.injEq .. ▸ congrArg id hpr
      refine ⟨p.2, ?_, ?_, ?_⟩
      · rw [← hi]; exact hget
      · exact hr.symm
      · rw [← hr]; exact hpcond
    · rintro ⟨s, hs, hr, hcond⟩
      refine ⟨(i, s), ⟨List.mem_enum_iff_getElem?.mpr hs, ?_⟩, ?_⟩
      · show 1 - s.1 * s.2 / (avg_width sizes * avg_height sizes) > treshold
        rw [hr] at hcond
        exact hcond
      · show (i, s.1 * s.2 / (avg_width sizes * avg_height sizes)) = (i, r)
        rw [hr]
  · rw [List.pairwise_map]
    exact List.Pairwise.filter _ (pairwise_fst_lt_enumFrom sizes 0)
  · intro ht hpos i r s hmem hgets
    simp only [List.mem_map, List.mem_filter, decide_eq_true_eq] at hmem
    obtain ⟨p, ⟨hpmem, hpcond⟩, hpr⟩ := hmem
    have hget := List.mem_enum_iff_getElem?.mp hpmem
    obtain ⟨hi, -⟩ := Prod.mk.injEq .. ▸ congrArg id hpr
    rw [← hi] at hgets
    rw [hget] at hgets
    have hs : s = p.2 := (Option.some.injEq .. ▸ hgets).symm
    rw [hs]
    have hlt : (p.2.1 * p.2.2) / (avg_width sizes * avg_height sizes) < 1 := by
      linarith
    exact (div_lt_one hpos).mp hlt

unseal Rat.mul Rat.inv Rat.add Rat.sub Rat.ofScientific in
/-- Witness for C2 at `[(2,2),(1,1)]` with threshold 1/5. -/
theorem claim_C2_witness :
    ∃ out, detect_non_pages [((2 : ℚ), (2 : ℚ)), (1, 1)] (1/5) = some out ∧
      (∀ i r, (i, r) ∈ out ↔ ∃ s, [((2 : ℚ), (2 : ℚ)), (1, 1)][i]? = some s ∧
          r = (s.1 * s.2) / (avg_width [((2 : ℚ), (2 : ℚ)), (1, 1)]
            * avg_height [((2 : ℚ), (2 : ℚ)), (1, 1)]) ∧
          1 - r > 1/5) ∧
      out.Pairwise (fun a b => a.1 < b.1) ∧
      ((0 : ℚ) < 1/5 → 0 < avg_width [((2 : ℚ), (2 : ℚ)), (1, 1)]
          * avg_height [((2 : ℚ), (2 : ℚ)), (1, 1)] →
        ∀ i r s, (i, r) ∈ out → [((2 : ℚ), (2 : ℚ)), (1, 1)][i]? = some s →
          s.1 * s.2 < avg_width [((2 : ℚ), (2 : ℚ)), (1, 1)]
            * avg_height [((2 : ℚ), (2 : ℚ)), (1, 1)]) :=
  claim_C2 [((2 : ℚ), (2 : ℚ)), (1, 1)] (1/5) (by decide) (by decide)

/-- The positional part of the rewrite contract, which the code does meet:
excluding a duplicate-free, in-range index set from an `N`-entry archive
keeps exactly the `N - |E|` non-excluded entries, whole and in their
original relative order. -/
theorem create_archive_entries {α : Type} (archive : List α)
    (excluded : List ℕ) (hnd : excluded.Nodup)
    (hb : ∀ e ∈ excluded, e < archive.length) :
    create_archive archive excluded
        = (archive.enum.filter (fun p => decide (p.1 ∉ excluded))).map Prod.snd
      ∧ (create_archive archive excluded).length
        = archive.length - excluded.length := by
  have heq : create_archive archive excluded
      = (archive.enum.filter (fun p => decide (p.1 ∉ excluded))).map
          Prod.snd := by
    rw [create_archive, ca_foldl]
    simp
  refine ⟨heq, ?_⟩
  rw [heq, List.length_map,
    length_filter_not_mem_enum archive excluded hnd hb]

/-- C3: evaluation at a failing input.  The kept entries, their order and
their bytes match the claim, but the recorded entry name does not:
`new_archive.write` receives the staged path `os.path.join(tmpdir, filename)`
and no `arcname`, so with staging directory `/tmp/tmpab12cd34` the surviving
entry of `[page01.png, page02.png]` minus index 1 is stored as
`tmp/tmpab12cd34/page01.png`, which differs from its original name
`page01.png`.  The claim's name-preservation conjunct therefore fails on the
code (a slip: the call at src line 27 omits `arcname=filename`), while the
spec's contract states the intended behaviour. -/
theorem claim_C3 :
    create_archive_zip ("/tmp/tmpab12cd34")
        [("page01.png", [1]), ("page02.png", [2])] [1]
      = [("tmp/tmpab12cd34/page01.png", [1])] ∧
    ("tmp/tmpab12cd34/page01.png" : String) ≠ "page01.png" := by
  refine ⟨?_, by decide⟩
  rfl

/-- C4: whenever the per-file pipeline fails at any step (undecodable entry,
division error in analysis, or an injected staging failure in
`create_archive`), the content of the original archive file is unchanged:
the replacement is fully staged before the original is replaced. -/
theorem claim_C4 (content : List Entry) (treshold : ℚ) (dry_run stage_ok : Bool)
    (hfail : except_failed (run_file content treshold dry_run stage_ok).1
      = true) :
    (run_file content treshold dry_run stage_ok).2 = content := by
  rw [run_file] at hfail ⊢
  cases h : analyze content treshold with
  | none => rfl
  | some non_pages =>
    rw [h] at hfail
    have hfail2 : except_failed
        (if non_pages = [] then ((Except.ok () : Except String Unit), content)
         else if dry_run = true then (Except.ok (), content)
         else if stage_ok = true then
           (Except.ok (), create_archive content (non_pages.map Prod.fst))
         else (Except.error ("staging failure"), content)).1 = true := hfail
    show (if non_pages = [] then ((Except.ok () : Except String Unit), content)
        else if dry_run = true then (Except.ok (), content)
        else if stage_ok = true then
          (Except.ok (), create_archive content (non_pages.map Prod.fst))
        else (Except.error ("staging failure"), content)).2 = content
    by_cases he : non_pages = []
    · rw [if_pos he]
    · rw [if_neg he] at hfail2 ⊢
      cases dry_run with
      | true => rfl
      | false =>
        cases stage_ok with
        | true => simp [except_failed] at hfail2
        | false => rfl

/-- Witness for C4: an undecodable entry makes the pipeline fail with the
file content untouched. -/
theorem claim_C4_witness :
    except_failed
        (run_file [⟨"p1", [0], none⟩] 1 false true).1 = true ∧
    (run_file [⟨"p1", [0], none⟩] 1 false true).2 = [⟨"p1", [0], none⟩] :=
  ⟨by decide, claim_C4 [⟨"p1", [0], none⟩] 1 false true (by decide)⟩

unseal Rat.mul Rat.inv Rat.add Rat.sub Rat.ofScientific in
/-- C5 counterexample: on `[(1000,1500)]×9 ++ [(200,300)]` the
post-normalization average area is 1,269,600 — not within 5% of the claimed
≈1,410,000 — and the flagged ratio is 25/529 ≈ 0.0473, not within 5% of the
claimed ≈0.0426. -/
theorem claim_C5_counterexample :
    avg_width (List.replicate 9 ((1000 : ℚ), (1500 : ℚ)) ++ [(200, 300)])
        * avg_height (List.replicate 9 ((1000 : ℚ), (1500 : ℚ)) ++ [(200, 300)])
      = 1269600 ∧
    ¬ (|(1269600 : ℚ) - 1410000| ≤ 1410000 * (5 / 100)) ∧
    detect_non_pages
        (List.replicate 9 ((1000 : ℚ), (1500 : ℚ)) ++ [(200, 300)]) (1/5)
      = some [(9, 25 / 529)] ∧
    ¬ (|(25 / 529 : ℚ) - 426 / 10000| ≤ 426 / 10000 * (5 / 100)) := by
  decide

unseal Rat.mul Rat.inv Rat.add Rat.sub Rat.ofScientific in
/-- C5 (amended): on `[(1000,1500)]×9 ++ [(200,300)]` with threshold 0.2,
normalization changes nothing, the average area is exactly 1,269,600, and
exactly index 9 is flagged, with ratio 25/529 ≈ 0.0473. -/
theorem claim_C5 :
    detect_double_spreads
        (List.replicate 9 ((1000 : ℚ), (1500 : ℚ)) ++ [(200, 300)]) (1/5)
      = some (List.replicate 9 ((1000 : ℚ), (1500 : ℚ)) ++ [(200, 300)]) ∧
    avg_width (List.replicate 9 ((1000 : ℚ), (1500 : ℚ)) ++ [(200, 300)])
        * avg_height (List.replicate 9 ((1000 : ℚ), (1500 : ℚ)) ++ [(200, 300)])
      = 1269600 ∧
    detect_non_pages
        (List.replicate 9 ((1000 : ℚ), (1500 : ℚ)) ++ [(200, 300)]) (1/5)
      = some [(9, 25 / 529)] := by
  decide

unseal Rat.mul Rat.inv Rat.add Rat.sub Rat.ofScientific in
/-- C6: on `[(1000,1500)]×9 ++ [(2000,1500)]` with threshold 0.2 the
normalizer rewrites entry 9 to `(1000,1500)`, leaves entries 0–8 unchanged,
and the detector then flags nothing. -/
theorem claim_C6 :
    detect_double_spreads
        (List.replicate 9 ((1000 : ℚ), (1500 : ℚ)) ++ [(2000, 1500)]) (1/5)
      = some (List.replicate 9 ((1000 : ℚ), (1500 : ℚ)) ++ [(1000, 1500)]) ∧
    detect_non_pages
        (List.replicate 9 ((1000 : ℚ), (1500 : ℚ)) ++ [(1000, 1500)]) (1/5)
      = some [] := by
  decide

/-- C7 (amended): for thresholds in `(0, 1/3]`, an entry that satisfied the
spread condition against the pre-normalization average no longer satisfies it
after its width is halved, re-evaluated against that same average.  (For
thresholds above 1/3 this fails; see the counterexample.) -/
theorem claim_C7 (average : ℚ × ℚ) (treshold : ℚ) (size : ℚ × ℚ)
    (ht0 : 0 < treshold) (ht3 : treshold ≤ 1/3)
    (hs : is_double_spread average treshold size) :
    ¬ is_double_spread average treshold (spread_rewrite size) := by
  intro hcontra
  have h1 : |1 - size.1 / 2 / average.1| < treshold := hs.1
  have h2 : |1 - size.1 / 2 / 2 / average.1| < treshold := hcontra.1
  have hkey : size.1 / 2 / average.1 = 2 * (size.1 / 2 / 2 / average.1) := by
    ring
  rw [hkey, abs_lt] at h1
  rw [abs_lt] at h2
  linarith [h1.1, h2.2]

unseal Rat.mul Rat.inv Rat.add Rat.sub Rat.ofScientific in
/-- C7 counterexample: with threshold 1/2 ∈ (0,1) and sizes
`[(1000,1000)]×3 ++ [(4000,1000)]` (average `(1750,1000)`), entry
`(4000,1000)` is classified as a spread, is rewritten to `(2000,1000)`, and
the rewritten entry satisfies the spread condition against the same original
average again. -/
theorem claim_C7_counterexample :
    (0 : ℚ) < 1/2 ∧ (1/2 : ℚ) < 1 ∧
    calculate_average_resolution
        [((1000 : ℚ), (1000 : ℚ)), (1000, 1000), (1000, 1000), (4000, 1000)]
      = some (1750, 1000) ∧
    is_double_spread (1750, 1000) (1/2) (4000, 1000) ∧
    spread_rewrite (4000, 1000) = (2000, 1000) ∧
    is_double_spread (1750, 1000) (1/2) (2000, 1000) := by
  decide

unseal Rat.mul Rat.inv Rat.add Rat.sub Rat.ofScientific in
/-- Witness for C7 (amended) at the C6 scenario's average and spread entry
with threshold 1/5. -/
theorem claim_C7_witness :
    (0 : ℚ) < 1/5 ∧ (1/5 : ℚ) ≤ 1/3 ∧
    is_double_spread (1100, 1500) (1/5) (2000, 1500) ∧
    ¬ is_double_spread (1100, 1500) (1/5) (spread_rewrite (2000, 1500)) :=
  ⟨by norm_num, by norm_num, by decide,
   claim_C7 (1100, 1500) (1/5) (2000, 1500) (by norm_num) (by norm_num)
     (by decide)⟩

/-- C8: on the empty size list the average is a division by zero — the
functions fail (`none`) rather than return any value, and so do
normalization and detection. -/
theorem claim_C8 :
    calculate_average_resolution ([] : List (ℚ × ℚ)) = none ∧
    (∀ treshold : ℚ, detect_double_spreads [] treshold = none) ∧
    (∀ treshold : ℚ, detect_non_pages [] treshold = none) :=
  ⟨rfl, fun _ => rfl, fun _ => rfl⟩

/-- C9: out-of-range excluded indices are silently ignored by
`create_archive`: the output is exactly the entries whose position is not in
the excluded list, so filtering the excluded list to the valid range changes
nothing, and no error is raised (the function is total). -/
theorem claim_C9 {α : Type} (archive : List α) (excluded : List ℕ) :
    create_archive archive excluded
        = (archive.enum.filter (fun p => decide (p.1 ∉ excluded))).map Prod.snd
      ∧ create_archive archive excluded
        = create_archive archive
            (excluded.filter (fun e => decide (e < archive.length))) := by
  have h1 : ∀ E : List ℕ, create_archive archive E
      = (archive.enum.filter (fun p => decide (p.1 ∉ E))).map Prod.snd := by
    intro E
    rw [create_archive, ca_foldl]
    simp
  refine ⟨h1 excluded, ?_⟩
  rw [h1, h1]
  refine congrArg _ (List.filter_congr ?_)
  intro p hp
  have hlt := fst_lt_of_mem_enum archive p hp
  simp [List.mem_filter, hlt]

/-- C10: the spread rewrite divides the width by 2 exactly (true division):
for an odd integer width the result is a non-integer rational, and the
averages are exact quotients of the coordinate sums (no rounding). -/
theorem claim_C10 (w : ℕ) (h : ℚ) (sizes : List (ℚ × ℚ))
    (hodd : w % 2 = 1) (hne : sizes ≠ []) :
    2 * (spread_rewrite ((w : ℚ), h)).1 = (w : ℚ) ∧
    (¬ ∃ z : ℤ, (spread_rewrite ((w : ℚ), h)).1 = (z : ℚ)) ∧
    (sizes.length : ℚ) * avg_width sizes = (sizes.map Prod.fst).sum ∧
    (sizes.length : ℚ) * avg_height sizes = (sizes.map Prod.snd).sum := by
  have hlen0 : sizes.length ≠ 0 := fun hc => hne (List.length_eq_zero.mp hc)
  have hlen : (sizes.length : ℚ) ≠ 0 := Nat.cast_ne_zero.mpr hlen0
  refine ⟨?_, ?_, ?_, ?_⟩
  · show 2 * ((w : ℚ) / 2) = (w : ℚ)
    ring
  · rintro ⟨z, hz⟩
    have hz1 : (w : ℚ) / 2 = (z : ℚ) := hz
    have hz2 : (w : ℚ) = 2 * (z : ℚ) := by
      field_simp at hz1
      linarith
    have hz3 : (w : ℤ) = 2 * z := by exact_mod_cast hz2
    omega
  · rw [avg_width, mul_comm, div_mul_cancel₀ _ hlen]
  · rw [avg_height, mul_comm, div_mul_cancel₀ _ hlen]

unseal Rat.mul Rat.inv Rat.add Rat.sub Rat.ofScientific in
/-- Witness for C10 at width 3, height 7, and the singleton list `[(1,2)]`. -/
theorem claim_C10_witness :
    2 * (spread_rewrite ((3 : ℚ), 7)).1 = ((3 : ℕ) : ℚ) ∧
    (¬ ∃ z : ℤ, (spread_rewrite ((3 : ℚ), 7)).1 = (z : ℚ)) ∧
    (([((1 : ℚ), (2 : ℚ))].length : ℚ) * avg_width [((1 : ℚ), (2 : ℚ))]
      = ([((1 : ℚ), (2 : ℚ))].map Prod.fst).sum) ∧
    (([((1 : ℚ), (2 : ℚ))].length : ℚ) * avg_height [((1 : ℚ), (2 : ℚ))]
      = ([((1 : ℚ), (2 : ℚ))].map Prod.snd).sum) := by
  have h := claim_C10 3 7 [((1 : ℚ), (2 : ℚ))] (by decide) (by decide)
  exact ⟨h.1, h.2.1, h.2.2.1, h.2.2.2⟩

end LittleBusters
